import Mathlib

/-
  Verification of the SynthOCT baseline pipeline.

  Shallow embedding of the repository's core algorithms:
  * `calculate_oac` and `calculate_speckle_contrast_map` from Part3_Processor.py
    (2-D numpy arrays are embedded as `List (List α)` of rows; `np.cumsum`,
    slicing, `np.pad` and `scipy.ndimage.uniform_filter` are given their
    elementwise denotations; real-valued operations use `ℚ` where the source
    only needs field arithmetic and `ℝ` where it takes square roots).
  * the comparison-tag classification, the Intra pairing policy,
    `check_interval_overlap` and the per-pair metric evaluation from
    Metric_Performance_Test_v5_MicroMesoMacro_Empirical.py (external scoring
    libraries - skimage, sewar, lpips - and file I/O are collaborators and
    enter as function parameters).
  * `get_stats_and_rating` (the tiered star rating) from
    Metrics_Plots_with_Intervals_and_SignificanceLevel.py, with `np.percentile`
    (linear-interpolation method), `np.mean`, `np.min`, `np.max`, `np.std`
    modelled exactly.
-/

/-- Entry of a 2-D array embedded as a list of rows; out-of-range reads
default to `0` (used only under explicit bounds in the theorems below). -/
def getE {α : Type} [Zero α] (m : List (List α)) (i j : ℕ) : α :=
  ((m[i]?).getD [])[j]?.getD 0

/-- Rectangularity: every row has length `w` (numpy arrays are rectangular). -/
def Rect {α : Type} (m : List (List α)) (w : ℕ) : Prop :=
  ∀ r ∈ m, r.length = w

/- ==================== OAC estimator (Part3_Processor.py) ==================== -/

/-- The `epsilon = 1e-10` constant of `calculate_oac`. -/
def oacEps : ℚ := 1 / 10 ^ 10

/-- Elementwise sum of two rows (one step of `np.cumsum(axis=0)`). -/
def addRows (a b : List ℚ) : List ℚ := List.zipWith (· + ·) a b

/-- Running sum of rows continuing from accumulated row `acc`. -/
def cumsumFrom (acc : List ℚ) : List (List ℚ) → List (List ℚ)
  | [] => []
  | r :: rs => addRows acc r :: cumsumFrom (addRows acc r) rs

/-- `np.cumsum(m, axis=0)`: running elementwise sum down the rows. -/
def cumsumRows (m : List (List ℚ)) : List (List ℚ) :=
  match m with
  | [] => []
  | r :: rs => r :: cumsumFrom r rs

/-- `calculate_oac(intensity, h_px)` from Part3_Processor.py:
reverse the rows, take the running sum, reverse back, subtract half the
local intensity, and divide. -/
def calculate_oac (intensity : List (List ℚ)) (h_px : ℚ) : List (List ℚ) :=
  let I_rev := intensity.reverse
  let cumsum_rev := cumsumRows I_rev
  let cumsum_from_bottom := cumsum_rev.reverse
  let denom_term :=
    List.zipWith (List.zipWith (fun c i => c - (1 / 2) * i)) cumsum_from_bottom intensity
  List.zipWith (List.zipWith (fun i d => i / (2 * h_px * (d + oacEps)))) intensity denom_term

/- ======= comparison tags and Intra pairing (Metric_Performance_Test) ======= -/

/-- The three comparison types of `run_analysis`. -/
inductive CompType where
  | intra
  | inter
  | cross
deriving DecidableEq

/-- The tag classification of a folder pair in `run_analysis`:
`if name_a == name_b: Intra; elif name_a == REFERENCE_SET: Inter;
elif name_b == REFERENCE_SET: Inter; else: Cross`. -/
def comp_type (reference_set name_a name_b : String) : CompType :=
  if name_a = name_b then CompType.intra
  else if name_a = reference_set then CompType.inter
  else if name_b = reference_set then CompType.inter
  else CompType.cross

/-- The Intra-tag index range of `run_analysis`:
`range(i + 1, min(i + 1 + NEIGHBOR_DEPTH, len(files_a)))`. -/
def intra_j_range (d N i : ℕ) : List ℕ :=
  List.range' (i + 1) (min (i + 1 + d) N - (i + 1))

/- ==================== helper lemmas on list indexing ==================== -/

theorem zipWith_getElem? {α β γ : Type} (f : α → β → γ) :
    ∀ (as : List α) (bs : List β) (i : ℕ),
      (List.zipWith f as bs)[i]? =
        match as[i]?, bs[i]? with
        | some a, some b => some (f a b)
        | _, _ => none := by
  intro as
  induction as with
  | nil => intro bs i; cases bs <;> cases i <;> simp
  | cons a as ih =>
    intro bs i
    cases bs with
    | nil => cases i <;> simp
    | cons b bs =>
      cases i with
      | zero => simp
      | succ i => simpa using ih bs i

theorem getE_zipWith2 {α β γ : Type} [Zero α] [Zero β] [Zero γ]
    (f : α → β → γ) (a : List (List α)) (b : List (List β)) (i j : ℕ)
    (hia : i < a.length) (hib : i < b.length)
    (hja : j < ((a[i]?).getD []).length) (hjb : j < ((b[i]?).getD []).length) :
    getE (List.zipWith (List.zipWith f) a b) i j = f (getE a i j) (getE b i j) := by
  unfold getE
  rw [List.getElem?_eq_getElem hia] at hja
  rw [List.getElem?_eq_getElem hib] at hjb
  simp only [Option.getD_some] at hja hjb
  rw [zipWith_getElem? (List.zipWith f) a b i, List.getElem?_eq_getElem hia,
    List.getElem?_eq_getElem hib]
  simp only [Option.getD_some]
  rw [zipWith_getElem? f _ _ j, List.getElem?_eq_getElem hja, List.getElem?_eq_getElem hjb]
  simp

theorem length_zipWith2 {α β γ : Type} (f : α → β → γ)
    (a : List α) (b : List β) :
    (List.zipWith f a b).length = min a.length b.length := by
  simp [List.length_zipWith]

/- ==================== OAC lemmas ==================== -/

theorem addRows_length (a b : List ℚ) : (addRows a b).length = min a.length b.length := by
  simp [addRows, List.length_zipWith]

theorem cumsumFrom_length (rs : List (List ℚ)) :
    ∀ acc : List ℚ, (cumsumFrom acc rs).length = rs.length := by
  induction rs with
  | nil => intro acc; simp [cumsumFrom]
  | cons r rs ih => intro acc; simp [cumsumFrom, ih]

theorem cumsumRows_length (m : List (List ℚ)) : (cumsumRows m).length = m.length := by
  cases m with
  | nil => simp [cumsumRows]
  | cons r rs => simp [cumsumRows, cumsumFrom_length]

theorem getE_cons_zero {α : Type} [Zero α] (r : List α) (rs : List (List α)) (j : ℕ) :
    getE (r :: rs) 0 j = r[j]?.getD 0 := by
  simp [getE]

theorem getE_cons_succ {α : Type} [Zero α] (r : List α) (rs : List (List α)) (i j : ℕ) :
    getE (r :: rs) (i + 1) j = getE rs i j := by
  simp [getE]

theorem rect_row_length {α : Type} {m : List (List α)} {w : ℕ}
    (hrect : Rect m w) {i : ℕ} (hi : i < m.length) :
    ((m[i]?).getD []).length = w := by
  rw [List.getElem?_eq_getElem hi]
  exact hrect _ (List.getElem_mem hi)

theorem rect_reverse {α : Type} {m : List (List α)} {w : ℕ} (hrect : Rect m w) :
    Rect m.reverse w := by
  intro r hr
  exact hrect r (List.mem_reverse.mp hr)

theorem rect_zipWith2 {α β γ : Type} (f : α → β → γ) {w : ℕ} :
    ∀ (a : List (List α)) (b : List (List β)), Rect a w → Rect b w →
      Rect (List.zipWith (List.zipWith f) a b) w := by
  intro a
  induction a with
  | nil => intro b _ _ r hr; simp at hr
  | cons ra a ih =>
    intro b ha hb r hr
    cases b with
    | nil => simp at hr
    | cons rb b =>
      simp only [List.zipWith_cons_cons, List.mem_cons] at hr
      rcases hr with h | h
      · subst h
        rw [List.length_zipWith, ha ra (by simp), hb rb (by simp)]
        simp
      · exact ih b (fun r hr => ha r (by simp [hr])) (fun r hr => hb r (by simp [hr])) r h

theorem addRows_getD (a b : List ℚ) (j : ℕ) (ha : j < a.length) (hb : j < b.length) :
    (addRows a b)[j]?.getD 0 = a[j]?.getD 0 + b[j]?.getD 0 := by
  unfold addRows
  rw [zipWith_getElem?, List.getElem?_eq_getElem ha, List.getElem?_eq_getElem hb]
  simp

theorem cumsumFrom_rect {w : ℕ} :
    ∀ (rs : List (List ℚ)) (acc : List ℚ), acc.length = w → Rect rs w →
      Rect (cumsumFrom acc rs) w := by
  intro rs
  induction rs with
  | nil => intro acc _ _ r hr; simp [cumsumFrom] at hr
  | cons r rs ih =>
    intro acc hacc hrect s hs
    have hr : r.length = w := hrect r (by simp)
    have hlen : (addRows acc r).length = w := by
      rw [addRows_length, hacc, hr]; simp
    simp only [cumsumFrom, List.mem_cons] at hs
    rcases hs with h | h
    · subst h; exact hlen
    · exact ih (addRows acc r) hlen (fun s hs => hrect s (by simp [hs])) s h

theorem cumsumRows_rect {m : List (List ℚ)} {w : ℕ} (hrect : Rect m w) :
    Rect (cumsumRows m) w := by
  cases m with
  | nil => intro r hr; simp [cumsumRows] at hr
  | cons r rs =>
    intro s hs
    simp only [cumsumRows, List.mem_cons] at hs
    rcases hs with h | h
    · subst h; exact hrect s (by simp)
    · exact cumsumFrom_rect rs r (hrect r (by simp))
        (fun t ht => hrect t (by simp [ht])) s h

theorem cumsumFrom_getE {w : ℕ} :
    ∀ (rs : List (List ℚ)) (acc : List ℚ), acc.length = w → Rect rs w →
      ∀ i j, i < rs.length → j < w →
        getE (cumsumFrom acc rs) i j = acc[j]?.getD 0 + ∑ k ∈ Finset.range (i + 1), getE rs k j := by
  intro rs
  induction rs with
  | nil => intro acc _ _ i j hi _; simp at hi
  | cons r rs ih =>
    intro acc hacc hrect i j hi hj
    have hr : r.length = w := hrect r (by simp)
    have haddlen : (addRows acc r).length = w := by
      rw [addRows_length, hacc, hr]; simp
    cases i with
    | zero =>
      rw [cumsumFrom, getE_cons_zero,
        addRows_getD acc r j (by omega) (by omega)]
      rw [Finset.sum_range_one, getE_cons_zero]
    | succ i =>
      rw [cumsumFrom, getE_cons_succ]
      rw [ih (addRows acc r) haddlen (fun t ht => hrect t (by simp [ht])) i j
        (by simpa using hi) hj]
      rw [addRows_getD acc r j (by omega) (by omega)]
      rw [Finset.sum_range_succ' (fun k => getE (r :: rs) k j) (i + 1)]
      have hshift : ∀ k, getE (r :: rs) (k + 1) j = getE rs k j := fun k => getE_cons_succ r rs k j
      simp only [hshift, getE_cons_zero]
      ring

theorem cumsumRows_getE {m : List (List ℚ)} {w : ℕ} (hrect : Rect m w)
    {i j : ℕ} (hi : i < m.length) (hj : j < w) :
    getE (cumsumRows m) i j = ∑ k ∈ Finset.range (i + 1), getE m k j := by
  cases m with
  | nil => simp at hi
  | cons r rs =>
    have hr : r.length = w := hrect r (by simp)
    cases i with
    | zero =>
      rw [cumsumRows, getE_cons_zero, Finset.sum_range_one, getE_cons_zero]
    | succ i =>
      rw [cumsumRows, getE_cons_succ]
      rw [cumsumFrom_getE rs r hr (fun t ht => hrect t (by simp [ht])) i j
        (by simpa using hi) hj]
      rw [Finset.sum_range_succ' (fun k => getE (r :: rs) k j) (i + 1)]
      have hshift : ∀ k, getE (r :: rs) (k + 1) j = getE rs k j := fun k => getE_cons_succ r rs k j
      simp only [hshift, getE_cons_zero]
      ring

theorem getE_reverse {α : Type} [Zero α] (l : List (List α)) (i j : ℕ)
    (hi : i < l.length) :
    getE l.reverse i j = getE l (l.length - 1 - i) j := by
  unfold getE
  rw [List.getElem?_reverse (by simpa using hi)]

theorem cumsum_from_bottom_getE {m : List (List ℚ)} {w : ℕ} (hrect : Rect m w)
    {i j : ℕ} (hi : i < m.length) (hj : j < w) :
    getE (cumsumRows m.reverse).reverse i j = ∑ k ∈ Finset.Ico i m.length, getE m k j := by
  set n := m.length with hn
  have hlen : (cumsumRows m.reverse).length = n := by
    rw [cumsumRows_length, List.length_reverse]
  rw [getE_reverse _ _ _ (by omega)]
  rw [hlen]
  have hrev : Rect m.reverse w := rect_reverse hrect
  rw [cumsumRows_getE hrev (by rw [List.length_reverse]; omega) hj]
  have h1 : n - 1 - i + 1 = n - i := by omega
  rw [h1]
  have h2 : ∀ k ∈ Finset.range (n - i), getE m.reverse k j = getE m (i + ((n - i) - 1 - k)) j := by
    intro k hk
    rw [Finset.mem_range] at hk
    rw [getE_reverse _ _ _ (by omega)]
    congr 1
    omega
  rw [Finset.sum_congr rfl h2]
  rw [Finset.sum_range_reflect (fun k => getE m (i + k) j) (n - i)]
  rw [Finset.sum_Ico_eq_sum_range (fun k => getE m k j) i n]

theorem calculate_oac_length (m : List (List ℚ)) (h_px : ℚ) :
    (calculate_oac m h_px).length = m.length := by
  unfold calculate_oac
  rw [List.length_zipWith, List.length_zipWith, List.length_reverse,
    cumsumRows_length, List.length_reverse]
  simp

theorem calculate_oac_rect {m : List (List ℚ)} {w : ℕ} (h_px : ℚ) (hrect : Rect m w) :
    Rect (calculate_oac m h_px) w := by
  unfold calculate_oac
  apply rect_zipWith2 _ _ _ hrect
  apply rect_zipWith2 _ _ _ _ hrect
  exact rect_reverse (cumsumRows_rect (rect_reverse hrect))

theorem calculate_oac_getE {m : List (List ℚ)} {w : ℕ} (h_px : ℚ) (hrect : Rect m w)
    {i j : ℕ} (hi : i < m.length) (hj : j < w) :
    getE (calculate_oac m h_px) i j =
      getE m i j /
        (2 * h_px * ((∑ k ∈ Finset.Ico i m.length, getE m k j) - (1 / 2) * getE m i j + oacEps)) := by
  have hcfb_rect : Rect (cumsumRows m.reverse).reverse w :=
    rect_reverse (cumsumRows_rect (rect_reverse hrect))
  have hcfb_len : (cumsumRows m.reverse).reverse.length = m.length := by
    rw [List.length_reverse, cumsumRows_length, List.length_reverse]
  have hden_rect : Rect (List.zipWith (List.zipWith (fun c i => c - (1 / 2) * i))
      (cumsumRows m.reverse).reverse m) w := rect_zipWith2 _ _ _ hcfb_rect hrect
  have hden_len : (List.zipWith (List.zipWith (fun c i => c - (1 / 2) * i))
      (cumsumRows m.reverse).reverse m).length = m.length := by
    rw [List.length_zipWith, hcfb_len]; simp
  unfold calculate_oac
  rw [getE_zipWith2 _ _ _ _ _ hi (by omega)
    (by rw [rect_row_length hrect hi]; exact hj)
    (by rw [rect_row_length hden_rect (by omega)]; exact hj)]
  rw [getE_zipWith2 _ _ _ _ _ (by omega) hi
    (by rw [rect_row_length hcfb_rect (by omega)]; exact hj)
    (by rw [rect_row_length hrect hi]; exact hj)]
  rw [cumsum_from_bottom_getE hrect hi hj]

/- ==== tiered significance classifier (Metrics_Plots_with_Intervals...) ==== -/

/-- Linear-interpolation lookup at fractional position `pos` in the sorted
list `s`: `s[floor(pos)] + (pos - floor(pos)) * (s[ceil] - s[floor])`,
the interpolation used by `np.percentile`. -/
def interpVal (s : List ℚ) (pos : ℚ) : ℚ :=
  s[(⌊pos⌋).toNat]?.getD 0 +
    (pos - ((⌊pos⌋).toNat : ℚ)) *
      (s[min ((⌊pos⌋).toNat + 1) (s.length - 1)]?.getD 0 - s[(⌊pos⌋).toNat]?.getD 0)

/-- `np.percentile(v, q)` with the default linear-interpolation method:
sort, then interpolate at virtual index `q/100 * (n-1)`. -/
def percentile (v : List ℚ) (q : ℚ) : ℚ :=
  let s := List.insertionSort (· ≤ ·) v
  interpVal s (q * ((s.length : ℚ) - 1) / 100)

/-- `np.min` on a non-empty list. -/
def listMin (v : List ℚ) : ℚ := v.foldr min (v.headD 0)

/-- `np.max` on a non-empty list. -/
def listMax (v : List ℚ) : ℚ := v.foldr max (v.headD 0)

/-- `np.mean`. -/
def listMean (v : List ℚ) : ℚ := v.sum / v.length

/-- `np.var` with `ddof = 0` (the default used by `np.std`). -/
def listVar (v : List ℚ) : ℚ := (v.map (fun x => (x - listMean v) ^ 2)).sum / v.length

/-- `np.std` (population standard deviation). -/
noncomputable def listStd (v : List ℚ) : ℝ := Real.sqrt ((listVar v : ℚ) : ℝ)

/-- `check_interval_overlap(low1, high1, low2, high2)` from
Metric_Performance_Test_v5: `max(low1, low2) <= min(high1, high2)`. -/
def check_interval_overlap (low1 high1 low2 high2 : ℚ) : Bool :=
  decide (max low1 low2 ≤ min high1 high2)

open Classical in
/-- The star rating computed by `get_stats_and_rating` (the value of its
`star_label` variable): `""` when the empirical 95% intervals overlap,
`"(*)"` when they do not, `"(**)"` when additionally the min/max ranges do
not overlap, `"(***)"` when additionally the gap between the nearest range
edges exceeds `std1 + std2`. -/
noncomputable def star_label (v1 v2 : List ℚ) : String :=
  let l1 := percentile v1 (5 / 2);  let h1 := percentile v1 (195 / 2)
  let l2 := percentile v2 (5 / 2);  let h2 := percentile v2 (195 / 2)
  if max l1 l2 ≤ min h1 h2 then ""
  else if max (listMin v1) (listMin v2) ≤ min (listMax v1) (listMax v2) then "(*)"
  else
    let gap := if listMax v2 < listMin v1 then listMin v1 - listMax v2
               else listMin v2 - listMax v1
    if listStd v1 + listStd v2 < ((gap : ℚ) : ℝ) then "(***)" else "(**)"

/-- `get_stats_and_rating(df_intra, df_inter, metric)` reduced to its
rating component: the guard `len(v1) == 0 or len(v2) == 0` returns `None`,
otherwise the star rating is produced (the returned dict's `stars` field). -/
noncomputable def get_stats_and_rating (v1 v2 : List ℚ) : Option String :=
  if v1.length = 0 ∨ v2.length = 0 then none else some (star_label v1 v2)

/- ==================== percentile lemmas ==================== -/

theorem sorted_getD_mono {s : List ℚ} (hs : List.Sorted (· ≤ ·) s)
    {a b : ℕ} (hab : a ≤ b) (hb : b < s.length) :
    s[a]?.getD 0 ≤ s[b]?.getD 0 := by
  have ha : a < s.length := lt_of_le_of_lt hab hb
  rw [List.getElem?_eq_getElem ha, List.getElem?_eq_getElem hb]
  simp only [Option.getD_some]
  rcases Nat.eq_or_lt_of_le hab with h | h
  · subst h; exact le_refl _
  · have := hs.rel_get_of_lt (a := ⟨a, ha⟩) (b := ⟨b, hb⟩) h
    simpa using this

theorem interpVal_mono {s : List ℚ} (hs : List.Sorted (· ≤ ·) s) (hne : s ≠ [])
    {p1 p2 : ℚ} (h0 : 0 ≤ p1) (h12 : p1 ≤ p2) (h2 : p2 ≤ (s.length : ℚ) - 1) :
    interpVal s p1 ≤ interpVal s p2 := by
  have hp2 : 0 ≤ p2 := le_trans h0 h12
  have hn1 : 1 ≤ s.length := List.length_pos.mpr hne
  set n := s.length with hn
  have hf1 : (0 : ℤ) ≤ ⌊p1⌋ := Int.floor_nonneg.mpr h0
  have hf2 : (0 : ℤ) ≤ ⌊p2⌋ := Int.floor_nonneg.mpr hp2
  set i1 := (⌊p1⌋).toNat with hi1def
  set i2 := (⌊p2⌋).toNat with hi2def
  have hc1 : ((i1 : ℤ) : ℚ) = ((⌊p1⌋ : ℤ) : ℚ) := by
    rw [hi1def, Int.toNat_of_nonneg hf1]
  have hc2 : ((i2 : ℤ) : ℚ) = ((⌊p2⌋ : ℤ) : ℚ) := by
    rw [hi2def, Int.toNat_of_nonneg hf2]
  have hcast1 : (i1 : ℚ) = ((⌊p1⌋ : ℤ) : ℚ) := by push_cast at hc1 ⊢; exact hc1
  have hcast2 : (i2 : ℚ) = ((⌊p2⌋ : ℤ) : ℚ) := by push_cast at hc2 ⊢; exact hc2
  have hfloor2 : ⌊p2⌋ ≤ (n : ℤ) - 1 := by
    have : ⌊p2⌋ ≤ ⌊((n : ℚ) - 1)⌋ := Int.floor_le_floor h2
    have heq : ⌊((n : ℚ) - 1)⌋ = (n : ℤ) - 1 := by
      rw [show ((n : ℚ) - 1) = (((n : ℤ) - 1 : ℤ) : ℚ) by push_cast; ring]
      exact Int.floor_intCast _
    omega
  have hi2n : i2 ≤ n - 1 := by omega
  have hi12 : i1 ≤ i2 := by
    have := Int.floor_le_floor h12
    omega
  have hi1n : i1 < n := by omega
  have hi2n' : i2 < n := by omega
  have hfrac1_lo : (i1 : ℚ) ≤ p1 := by rw [hcast1]; exact Int.floor_le p1
  have hfrac1_hi : p1 < (i1 : ℚ) + 1 := by rw [hcast1]; exact Int.lt_floor_add_one p1
  have hfrac2_lo : (i2 : ℚ) ≤ p2 := by rw [hcast2]; exact Int.floor_le p2
  set j1 := min (i1 + 1) (n - 1) with hj1def
  set j2 := min (i2 + 1) (n - 1) with hj2def
  have hj1n : j1 < n := by omega
  have hj2n : j2 < n := by omega
  have hij1 : i1 ≤ j1 := by omega
  have hij2 : i2 ≤ j2 := by omega
  have hd1 : 0 ≤ s[j1]?.getD 0 - s[i1]?.getD 0 :=
    sub_nonneg.mpr (sorted_getD_mono hs hij1 hj1n)
  have hd2 : 0 ≤ s[j2]?.getD 0 - s[i2]?.getD 0 :=
    sub_nonneg.mpr (sorted_getD_mono hs hij2 hj2n)
  unfold interpVal
  rw [← hn, ← hi1def, ← hi2def, ← hj1def, ← hj2def]
  rcases Nat.eq_or_lt_of_le hi12 with heq | hlt
  · have hj12 : j1 = j2 := by rw [hj1def, hj2def, heq]
    rw [heq, hj12]
    have hfi : (i1 : ℚ) = (i2 : ℚ) := by exact_mod_cast congrArg (fun k : ℕ => (k : ℚ)) heq
    have hff : p1 - (i2 : ℚ) ≤ p2 - (i2 : ℚ) := by linarith
    have := mul_le_mul_of_nonneg_right hff hd2
    linarith
  · have hv1 : s[i1]?.getD 0 + (p1 - (i1 : ℚ)) * (s[j1]?.getD 0 - s[i1]?.getD 0) ≤
        s[j1]?.getD 0 := by
      have hle1 : p1 - (i1 : ℚ) ≤ 1 := by linarith
      have := mul_le_of_le_one_left hd1 hle1
      linarith
    have hj1i2 : j1 ≤ i2 := by omega
    have hmid : s[j1]?.getD 0 ≤ s[i2]?.getD 0 := sorted_getD_mono hs hj1i2 hi2n'
    have hv2 : s[i2]?.getD 0 ≤
        s[i2]?.getD 0 + (p2 - (i2 : ℚ)) * (s[j2]?.getD 0 - s[i2]?.getD 0) := by
      have hge : 0 ≤ p2 - (i2 : ℚ) := by linarith
      have := mul_nonneg hge hd2
      linarith
    linarith

theorem percentile_le_percentile (v : List ℚ) (hv : v ≠ [])
    {q1 q2 : ℚ} (h0 : 0 ≤ q1) (h12 : q1 ≤ q2) (h100 : q2 ≤ 100) :
    percentile v q1 ≤ percentile v q2 := by
  unfold percentile
  set s := List.insertionSort (· ≤ ·) v with hs
  have hsorted : List.Sorted (· ≤ ·) s := List.sorted_insertionSort (· ≤ ·) v
  have hlen : s.length = v.length := (List.perm_insertionSort (· ≤ ·) v).length_eq
  have hne : s ≠ [] := by
    intro h
    apply hv
    rw [← List.length_eq_zero, ← hlen, h]
    simp
  have hn1 : 1 ≤ s.length := List.length_pos.mpr hne
  have hnn : (0 : ℚ) ≤ (s.length : ℚ) - 1 := by
    have : (1 : ℚ) ≤ (s.length : ℚ) := by exact_mod_cast hn1
    linarith
  apply interpVal_mono hsorted hne
  · positivity
  · apply div_le_div_of_nonneg_right ?_ (by norm_num)
    exact mul_le_mul_of_nonneg_right h12 hnn
  · rw [div_le_iff₀ (by norm_num)]
    calc q2 * ((s.length : ℚ) - 1) ≤ 100 * ((s.length : ℚ) - 1) :=
          mul_le_mul_of_nonneg_right h100 hnn
      _ = ((s.length : ℚ) - 1) * 100 := by ring

/- ========= per-pair metric evaluation (calc_pair_metrics and the ========= -/
/- ========= orchestrator's calculate_all_metrics)                  ========= -/

/-- A metric score: a scalar or the `np.nan` marker written on failure. -/
inductive MetricVal where
  | val (q : ℚ)
  | nan
deriving DecidableEq

/-- `numpy` array shape of a 2-D image: (number of rows, row length). -/
def dims {α : Type} (m : List (List α)) : ℕ × ℕ := (m.length, (m.headD []).length)

/-- `(x * 255).astype(np.uint8)` on a pixel of an image with values in
`[0, 1]`: conversion to an integer dtype truncates toward zero. -/
def toU8 (x : ℚ) : ℤ := ⌊x * 255⌋

/-- `(img * 255).astype(np.uint8)` applied to a whole image. -/
def quantU8 (m : List (List ℚ)) : List (List ℤ) := m.map (List.map toU8)

/-- `calc_pair_metrics(p1, p2)` from Metric_Performance_Test_v5, after the
two images have been loaded and converted by `img_as_float` (file I/O and
the external scoring libraries skimage / sewar / lpips are collaborators
and enter as parameters).  A shape mismatch returns the empty dict; the
sewar metrics VIF and MS-SSIM are fed the 8-bit quantized images and are
appended only when the sewar library is available; LPIPS is appended only
when the torch/lpips collaborator is available. -/
def calc_pair_metrics
    (mseF psnrF ssimF : List (List ℚ) → List (List ℚ) → ℚ)
    (sewarAvailable : Bool) (vifF msssimF : List (List ℤ) → List (List ℤ) → MetricVal)
    (mlAvailable : Bool) (lpipsF : List (List ℚ) → List (List ℚ) → ℚ)
    (i1 i2 : List (List ℚ)) : List (String × MetricVal) :=
  if dims i1 ≠ dims i2 then []
  else
    [("MSE", MetricVal.val (mseF i1 i2)),
     ("PSNR", MetricVal.val (psnrF i1 i2)),
     ("SSIM", MetricVal.val (ssimF i1 i2))]
    ++ (if sewarAvailable then
          [("VIF", vifF (quantU8 i1) (quantU8 i2)),
           ("MS-SSIM", msssimF (quantU8 i1) (quantU8 i2))]
        else [])
    ++ (if mlAvailable then [("LPIPS", MetricVal.val (lpipsF i1 i2))] else [])

/-- `calculate_all_metrics(path_ref, path_target)` from Orchestrator.py,
after both images have been loaded (collaborators as parameters, as in
`calc_pair_metrics`; `resizeF` stands for `skimage.transform.resize`).
On a shape mismatch the target is resized to the reference's shape and
scoring proceeds; unavailable collaborators write `np.nan` markers. -/
def calculate_all_metrics
    (mseF psnrF ssimF : List (List ℚ) → List (List ℚ) → ℚ)
    (resizeF : List (List ℚ) → ℕ × ℕ → List (List ℚ))
    (sewarAvailable : Bool) (vifF msssimF : List (List ℤ) → List (List ℤ) → MetricVal)
    (lpipsAvailable : Bool) (lpipsF : List (List ℚ) → List (List ℚ) → ℚ)
    (img_ref img_tar : List (List ℚ)) : List (String × MetricVal) :=
  let tar := if dims img_ref ≠ dims img_tar then resizeF img_tar (dims img_ref) else img_tar
  [("MSE", MetricVal.val (mseF img_ref tar)),
   ("PSNR", MetricVal.val (psnrF img_ref tar)),
   ("SSIM", MetricVal.val (ssimF img_ref tar))]
  ++ (if sewarAvailable then
        [("VIF", vifF (quantU8 img_ref) (quantU8 tar)),
         ("MS-SSIM", msssimF (quantU8 img_ref) (quantU8 tar))]
      else [("VIF", MetricVal.nan), ("MS-SSIM", MetricVal.nan)])
  ++ (if lpipsAvailable then [("LPIPS", MetricVal.val (lpipsF img_ref tar))]
      else [("LPIPS", MetricVal.nan)])

/-- Dummy scalar collaborator used to instantiate the models on
concrete inputs. -/
def zeroScore : List (List ℚ) → List (List ℚ) → ℚ := fun _ _ => 0

/-- Dummy sewar collaborator used to instantiate the models. -/
def nanScore : List (List ℤ) → List (List ℤ) → MetricVal := fun _ _ => MetricVal.nan

/-- Dummy resize collaborator used to instantiate the models. -/
def constResize : List (List ℚ) → ℕ × ℕ → List (List ℚ) := fun _ _ => [[0]]

/- ========= speckle-contrast estimator (Part3_Processor.py) ========= -/

/-- The `1e-10` regularizer in the speckle-contrast denominator. -/
noncomputable def scEps : ℝ := 1 / 10 ^ 10

/-- Boundary index extension of scipy's `mode='reflect'`
(`(d c b a | a b c d | d c b a)`): half-sample symmetric reflection,
periodic with period `2 * n`. -/
def reflectIdx (n : ℕ) (z : ℤ) : ℕ :=
  let m := (z % (2 * n)).toNat
  if m < n then m else 2 * n - 1 - m

/-- Number of rows of a 2-D array. -/
def nrows {α : Type} (m : List (List α)) : ℕ := m.length

/-- Number of columns of a (rectangular) 2-D array. -/
def ncols {α : Type} (m : List (List α)) : ℕ := (m.headD []).length

/-- One output sample of `scipy.ndimage.uniform_filter(m, size)` with
`mode='reflect'`: the mean of the `size × size` window whose offsets run
from `-(size // 2)` to `size - 1 - size // 2` in each axis, with
reflected boundary indexing. -/
noncomputable def ufVal (m : List (List ℝ)) (size i j : ℕ) : ℝ :=
  (∑ di ∈ Finset.range size, ∑ dj ∈ Finset.range size,
      getE m (reflectIdx (nrows m) ((i : ℤ) + (di : ℤ) - ((size / 2 : ℕ) : ℤ)))
             (reflectIdx (ncols m) ((j : ℤ) + (dj : ℤ) - ((size / 2 : ℕ) : ℤ))))
    / ((size : ℝ)) ^ 2

/-- `scipy.ndimage.uniform_filter(m, size, mode='reflect')`. -/
noncomputable def uniform_filter (size : ℕ) (m : List (List ℝ)) : List (List ℝ) :=
  (List.range (nrows m)).map fun i => (List.range (ncols m)).map fun j => ufVal m size i j

/-- Elementwise square (`data ** 2`). -/
noncomputable def sq2 (m : List (List ℝ)) : List (List ℝ) := m.map (List.map (fun x => x ^ 2))

/-- `mean_val = uniform_filter(data, size=window_size, mode='reflect')`. -/
noncomputable def mean_val (data : List (List ℝ)) (ws : ℕ) : List (List ℝ) :=
  uniform_filter ws data

/-- `mean_sq_val = uniform_filter(data**2, size=window_size, mode='reflect')`. -/
noncomputable def mean_sq_val (data : List (List ℝ)) (ws : ℕ) : List (List ℝ) :=
  uniform_filter ws (sq2 data)

/-- `var_val = mean_sq_val - mean_val**2`. -/
noncomputable def var_val (data : List (List ℝ)) (ws : ℕ) : List (List ℝ) :=
  List.zipWith (List.zipWith (fun msq mv => msq - mv ^ 2)) (mean_sq_val data ws) (mean_val data ws)

/-- `var_val[var_val < 0] = 0`: clamp each negative entry to zero. -/
noncomputable def var_clamped (data : List (List ℝ)) (ws : ℕ) : List (List ℝ) :=
  (var_val data ws).map (List.map (fun x => max x 0))

/-- `std_val = np.sqrt(var_val)`. -/
noncomputable def std_val (data : List (List ℝ)) (ws : ℕ) : List (List ℝ) :=
  (var_clamped data ws).map (List.map Real.sqrt)

/-- `sc_map = std_val / (mean_val + 1e-10)`. -/
noncomputable def sc_map_raw (data : List (List ℝ)) (ws : ℕ) : List (List ℝ) :=
  List.zipWith (List.zipWith (fun sd mv => sd / (mv + scEps))) (std_val data ws) (mean_val data ws)

/-- The python slice `l[b:-b]`; for `b = 0` the stop index `-0` is `0`, so
the slice is empty. -/
def cropB {α : Type} (b : ℕ) (l : List α) : List α :=
  if b = 0 then [] else (l.drop b).take (l.length - 2 * b)

/-- `sc_map[border:-border, border:-border]`. -/
def crop2 {α : Type} (b : ℕ) (m : List (List α)) : List (List α) :=
  (cropB b m).map (cropB b)

/-- One row of `np.pad(..., border, mode='edge')`: replicate the edge
values `b` times on each side. -/
def padRow {α : Type} [Zero α] (b : ℕ) (r : List α) : List α :=
  List.replicate b (r.headD 0) ++ r ++ List.replicate b (r.getLastD 0)

/-- `np.pad(m, b, mode='edge')`: pad each row, then replicate the first
and last padded rows `b` times. -/
def pad2 {α : Type} [Zero α] (b : ℕ) (m : List (List α)) : List (List α) :=
  let m2 := m.map (padRow b)
  List.replicate b (m2.headD []) ++ m2 ++ List.replicate b (m2.getLastD [])

/-- `calculate_speckle_contrast_map(data, window_size)` from
Part3_Processor.py.  `np.pad(..., mode='edge')` raises a `ValueError` on an
array with an empty axis (which happens whenever the crop removes
everything, i.e. whenever a dimension is at most `2 * (window_size // 2)`,
and also when `border = 0`, since `l[0:-0]` is the empty slice); the
failure is modelled by returning `none`. -/
noncomputable def calculate_speckle_contrast_map (data : List (List ℝ)) (window_size : ℕ) :
    Option (List (List ℝ)) :=
  let sc_map := sc_map_raw data window_size
  let border := window_size / 2
  let sc_map_cropped := crop2 border sc_map
  if border = 0 ∨ sc_map_cropped.length = 0 ∨ ∃ r ∈ sc_map_cropped, r.length = 0 then none
  else some (pad2 border sc_map_cropped)

/-- Uniform scaling of an image by a constant `c` (`c * data`). -/
noncomputable def smul2 (c : ℝ) (m : List (List ℝ)) : List (List ℝ) :=
  m.map (List.map (fun x => c * x))

/-- Concrete 3×3 image with positive entries used for the speckle-contrast
scale-invariance analysis. -/
noncomputable def sampleImg : List (List ℝ) := [[1, 1, 1], [3, 3, 1], [1, 1, 1]]

/-- Concrete 2×2 intensity image used to instantiate the OAC theorems. -/
def oacImg : List (List ℚ) := [[4, 2], [1, 3]]

/- ==================== speckle-contrast lemmas ==================== -/

theorem ncols_eq {α : Type} {m : List (List α)} {w : ℕ} (hne : m ≠ []) (hrect : Rect m w) :
    ncols m = w := by
  cases m with
  | nil => exact absurd rfl hne
  | cons r rs => exact hrect r (by simp)

theorem uniform_filter_length (size : ℕ) (m : List (List ℝ)) :
    (uniform_filter size m).length = m.length := by
  simp [uniform_filter, nrows]

theorem uniform_filter_rect (size : ℕ) (m : List (List ℝ)) :
    Rect (uniform_filter size m) (ncols m) := by
  intro r hr
  simp only [uniform_filter, List.mem_map] at hr
  obtain ⟨i, _, hr⟩ := hr
  rw [← hr]
  simp

theorem getE_uniform_filter (size : ℕ) (m : List (List ℝ)) {i j : ℕ}
    (hi : i < nrows m) (hj : j < ncols m) :
    getE (uniform_filter size m) i j = ufVal m size i j := by
  unfold getE uniform_filter
  rw [List.getElem?_map, List.getElem?_range hi]
  simp only [Option.map_some', Option.getD_some]
  rw [List.getElem?_map, List.getElem?_range hj]
  simp

theorem rect_map_map {α β : Type} (f : α → β) {m : List (List α)} {w : ℕ}
    (hrect : Rect m w) : Rect (m.map (List.map f)) w := by
  intro r hr
  simp only [List.mem_map] at hr
  obtain ⟨s, hs, hr⟩ := hr
  rw [← hr, List.length_map]
  exact hrect s hs

theorem getE_map_map {α β : Type} [Zero α] [Zero β] {f : α → β} (hf : f 0 = 0)
    (m : List (List α)) (i j : ℕ) :
    getE (m.map (List.map f)) i j = f (getE m i j) := by
  unfold getE
  rw [List.getElem?_map]
  cases hrow : m[i]? with
  | none => simp [hf]
  | some r =>
    simp only [Option.map_some', Option.getD_some]
    rw [List.getElem?_map]
    cases hx : r[j]? with
    | none => simp [hf]
    | some x => simp

theorem sq2_length (m : List (List ℝ)) : (sq2 m).length = m.length := by
  simp [sq2]

theorem ncols_sq2 (m : List (List ℝ)) : ncols (sq2 m) = ncols m := by
  cases m <;> simp [sq2, ncols]

theorem nrows_sq2 (m : List (List ℝ)) : nrows (sq2 m) = nrows m := by
  simp [sq2, nrows]

theorem getE_sq2 (m : List (List ℝ)) (i j : ℕ) : getE (sq2 m) i j = (getE m i j) ^ 2 := by
  unfold sq2
  rw [getE_map_map (by norm_num)]

theorem smul2_length (c : ℝ) (m : List (List ℝ)) : (smul2 c m).length = m.length := by
  simp [smul2]

theorem rect_smul2 (c : ℝ) {m : List (List ℝ)} {w : ℕ} (hrect : Rect m w) :
    Rect (smul2 c m) w := rect_map_map _ hrect

theorem ncols_smul2 (c : ℝ) (m : List (List ℝ)) : ncols (smul2 c m) = ncols m := by
  cases m <;> simp [smul2, ncols]

theorem nrows_smul2 (c : ℝ) (m : List (List ℝ)) : nrows (smul2 c m) = nrows m := by
  simp [smul2, nrows]

theorem getE_smul2 (c : ℝ) (m : List (List ℝ)) (i j : ℕ) :
    getE (smul2 c m) i j = c * getE m i j := by
  unfold smul2
  rw [getE_map_map (by norm_num)]

theorem sc_pipeline_shapes (data : List (List ℝ)) (w ws : ℕ)
    (hne : data ≠ []) (hrect : Rect data w) :
    (sc_map_raw data ws).length = data.length ∧ Rect (sc_map_raw data ws) w := by
  have hcols : ncols data = w := ncols_eq hne hrect
  have hm_len : (mean_val data ws).length = data.length := uniform_filter_length ws data
  have hm_rect : Rect (mean_val data ws) w := by
    have := uniform_filter_rect ws data
    rwa [hcols] at this
  have hms_len : (mean_sq_val data ws).length = data.length := by
    rw [mean_sq_val, uniform_filter_length, sq2_length]
  have hms_rect : Rect (mean_sq_val data ws) w := by
    have := uniform_filter_rect ws (sq2 data)
    rwa [ncols_sq2, hcols] at this
  have hv_len : (var_val data ws).length = data.length := by
    rw [var_val, List.length_zipWith, hms_len, hm_len]; simp
  have hv_rect : Rect (var_val data ws) w := rect_zipWith2 _ _ _ hms_rect hm_rect
  have hvc_len : (var_clamped data ws).length = data.length := by
    rw [var_clamped, List.length_map, hv_len]
  have hvc_rect : Rect (var_clamped data ws) w := rect_map_map _ hv_rect
  have hsd_len : (std_val data ws).length = data.length := by
    rw [std_val, List.length_map, hvc_len]
  have hsd_rect : Rect (std_val data ws) w := rect_map_map _ hvc_rect
  constructor
  · rw [sc_map_raw, List.length_zipWith, hsd_len, hm_len]; simp
  · exact rect_zipWith2 _ _ _ hsd_rect hm_rect

theorem sc_map_raw_getE (data : List (List ℝ)) (w ws : ℕ) {i j : ℕ}
    (hne : data ≠ []) (hrect : Rect data w) (hi : i < data.length) (hj : j < w) :
    getE (sc_map_raw data ws) i j =
      Real.sqrt (max (ufVal (sq2 data) ws i j - (ufVal data ws i j) ^ 2) 0) /
        (ufVal data ws i j + scEps) := by
  have hcols : ncols data = w := ncols_eq hne hrect
  have hm_len : (mean_val data ws).length = data.length := uniform_filter_length ws data
  have hm_rect : Rect (mean_val data ws) w := by
    have := uniform_filter_rect ws data
    rwa [hcols] at this
  have hms_len : (mean_sq_val data ws).length = data.length := by
    rw [mean_sq_val, uniform_filter_length, sq2_length]
  have hms_rect : Rect (mean_sq_val data ws) w := by
    have := uniform_filter_rect ws (sq2 data)
    rwa [ncols_sq2, hcols] at this
  have hv_len : (var_val data ws).length = data.length := by
    rw [var_val, List.length_zipWith, hms_len, hm_len]; simp
  have hv_rect : Rect (var_val data ws) w := rect_zipWith2 _ _ _ hms_rect hm_rect
  have hvc_len : (var_clamped data ws).length = data.length := by
    rw [var_clamped, List.length_map, hv_len]
  have hvc_rect : Rect (var_clamped data ws) w := rect_map_map _ hv_rect
  have hsd_len : (std_val data ws).length = data.length := by
    rw [std_val, List.length_map, hvc_len]
  have hsd_rect : Rect (std_val data ws) w := rect_map_map _ hvc_rect
  rw [sc_map_raw]
  rw [getE_zipWith2 _ _ _ _ _ (by omega) (by omega)
    (by rw [rect_row_length hsd_rect (by omega)]; exact hj)
    (by rw [rect_row_length hm_rect (by omega)]; exact hj)]
  rw [std_val, getE_map_map Real.sqrt_zero]
  rw [var_clamped, getE_map_map (by simp)]
  rw [var_val]
  rw [getE_zipWith2 _ _ _ _ _ (by omega) (by omega)
    (by rw [rect_row_length hms_rect (by omega)]; exact hj)
    (by rw [rect_row_length hm_rect (by omega)]; exact hj)]
  rw [mean_val, mean_sq_val]
  rw [getE_uniform_filter ws data (by rw [nrows]; omega) (by rw [hcols]; exact hj)]
  rw [getE_uniform_filter ws (sq2 data) (by rw [nrows_sq2, nrows]; omega)
    (by rw [ncols_sq2, hcols]; exact hj)]

theorem cropB_length {α : Type} {b : ℕ} (hb : b ≠ 0) (l : List α) :
    (cropB b l).length = l.length - 2 * b := by
  unfold cropB
  rw [if_neg hb, List.length_take, List.length_drop]
  omega

theorem crop2_length {α : Type} {b : ℕ} (hb : b ≠ 0) (m : List (List α)) :
    (crop2 b m).length = m.length - 2 * b := by
  rw [crop2, List.length_map, cropB_length hb]

theorem cropB_subset {α : Type} (b : ℕ) (l : List α) : ∀ x ∈ cropB b l, x ∈ l := by
  intro x hx
  unfold cropB at hx
  split at hx
  · simp at hx
  · exact List.drop_subset _ _ (List.take_subset _ _ hx)

theorem crop2_rect {α : Type} {b : ℕ} (hb : b ≠ 0) {m : List (List α)} {w : ℕ}
    (hrect : Rect m w) : Rect (crop2 b m) (w - 2 * b) := by
  intro r hr
  simp only [crop2, List.mem_map] at hr
  obtain ⟨s, hs, hr⟩ := hr
  rw [← hr, cropB_length hb, hrect s (cropB_subset b m s hs)]

theorem padRow_length {α : Type} [Zero α] (b : ℕ) (r : List α) :
    (padRow b r).length = b + r.length + b := by
  simp [padRow]
  omega

theorem pad2_length {α : Type} [Zero α] (b : ℕ) (m : List (List α)) :
    (pad2 b m).length = b + m.length + b := by
  simp [pad2]
  omega

theorem headD_mem {α : Type} {l : List α} (hne : l ≠ []) (d : α) : l.headD d ∈ l := by
  cases l with
  | nil => exact absurd rfl hne
  | cons a as => simp

theorem getLastD_mem {α : Type} {l : List α} (hne : l ≠ []) (d : α) : l.getLastD d ∈ l := by
  cases l with
  | nil => exact absurd rfl hne
  | cons a as =>
    rw [List.getLastD_eq_getLast?, List.getLast?_eq_getLast (a :: as) (by simp)]
    simp only [Option.getD_some]
    exact List.getLast_mem _

theorem pad2_rect {α : Type} [Zero α] (b : ℕ) {m : List (List α)} {w : ℕ}
    (hne : m ≠ []) (hrect : Rect m w) : Rect (pad2 b m) (b + w + b) := by
  have hmap : ∀ r ∈ m.map (padRow b), r.length = b + w + b := by
    intro r hr
    simp only [List.mem_map] at hr
    obtain ⟨s, hs, hr⟩ := hr
    rw [← hr, padRow_length, hrect s hs]
  have hmapne : m.map (padRow b) ≠ [] := by
    cases m with
    | nil => exact absurd rfl hne
    | cons a as => simp
  intro r hr
  simp only [pad2, List.mem_append, List.mem_replicate] at hr
  rcases hr with (⟨_, h⟩ | h) | ⟨_, h⟩
  · rw [h]; exact hmap _ (headD_mem hmapne [])
  · exact hmap r h
  · rw [h]; exact hmap _ (getLastD_mem hmapne [])

theorem speckle_some (data : List (List ℝ)) (w ws : ℕ)
    (hrect : Rect data w) (hws : 2 ≤ ws)
    (hh : 2 * (ws / 2) < data.length) (hw : 2 * (ws / 2) < w) :
    ∃ m, calculate_speckle_contrast_map data ws = some m ∧
      m.length = data.length ∧ Rect m w := by
  set b := ws / 2 with hb
  have hb0 : b ≠ 0 := by omega
  have hne : data ≠ [] := by
    intro h
    rw [h] at hh
    simp at hh
  obtain ⟨hlen, hrect'⟩ := sc_pipeline_shapes data w ws hne hrect
  have hclen : (crop2 b (sc_map_raw data ws)).length = data.length - 2 * b := by
    rw [crop2_length hb0, hlen]
  have hcrect : Rect (crop2 b (sc_map_raw data ws)) (w - 2 * b) := crop2_rect hb0 hrect'
  have hcne : crop2 b (sc_map_raw data ws) ≠ [] := by
    intro h
    rw [← List.length_eq_zero] at h
    omega
  have hcond : ¬(b = 0 ∨ (crop2 b (sc_map_raw data ws)).length = 0 ∨
      ∃ r ∈ crop2 b (sc_map_raw data ws), r.length = 0) := by
    push_neg
    refine ⟨hb0, by omega, ?_⟩
    intro r hr
    rw [hcrect r hr]
    omega
  refine ⟨pad2 b (crop2 b (sc_map_raw data ws)), ?_, ?_, ?_⟩
  · unfold calculate_speckle_contrast_map
    rw [if_neg hcond]
  · rw [pad2_length, hclen]
    omega
  · have := pad2_rect b hcne hcrect
    have heq : b + (w - 2 * b) + b = w := by omega
    rwa [heq] at this

theorem cropB_getElem? {α : Type} {b : ℕ} (hb : b ≠ 0) (l : List α) (k : ℕ)
    (hk : k < l.length - 2 * b) : (cropB b l)[k]? = l[b + k]? := by
  unfold cropB
  rw [if_neg hb, List.getElem?_take, if_pos hk, List.getElem?_drop]

theorem crop2_getE {α : Type} [Zero α] {b : ℕ} (hb : b ≠ 0) {m : List (List α)}
    {w k l : ℕ} (hrect : Rect m w) (hk : k < m.length - 2 * b) (hl : l < w - 2 * b) :
    getE (crop2 b m) k l = getE m (b + k) (b + l) := by
  have hbk : b + k < m.length := by omega
  unfold getE crop2
  rw [List.getElem?_map, cropB_getElem? hb m k hk, List.getElem?_eq_getElem hbk]
  simp only [Option.map_some', Option.getD_some]
  have hrow : (m[b + k]).length = w := hrect _ (List.getElem_mem hbk)
  rw [cropB_getElem? hb _ l (by rw [hrow]; exact hl)]

theorem pad2_getE_interior {α : Type} [Zero α] {b : ℕ} {M : List (List α)} {w i j : ℕ}
    (hrect : Rect M w) (hi1 : b ≤ i) (hi2 : i < b + M.length)
    (hj1 : b ≤ j) (hj2 : j < b + w) :
    getE (pad2 b M) i j = getE M (i - b) (j - b) := by
  have hib : i - b < M.length := by omega
  unfold getE
  simp only [pad2]
  rw [List.getElem?_append, if_pos (by
    rw [List.length_append, List.length_replicate, List.length_map]; omega)]
  rw [List.getElem?_append_right (by rw [List.length_replicate]; exact hi1),
    List.length_replicate]
  rw [List.getElem?_map, List.getElem?_eq_getElem hib]
  simp only [Option.map_some', Option.getD_some]
  have hrow : (M[i - b]).length = w := hrect _ (List.getElem_mem hib)
  unfold padRow
  rw [List.getElem?_append, if_pos (by
    rw [List.length_append, List.length_replicate, hrow]; omega)]
  rw [List.getElem?_append_right (by rw [List.length_replicate]; exact hj1),
    List.length_replicate]

theorem speckle_eq (data : List (List ℝ)) (w ws : ℕ)
    (hrect : Rect data w) (hws : 2 ≤ ws)
    (hh : 2 * (ws / 2) < data.length) (hw : 2 * (ws / 2) < w) :
    calculate_speckle_contrast_map data ws =
      some (pad2 (ws / 2) (crop2 (ws / 2) (sc_map_raw data ws))) := by
  set b := ws / 2 with hb
  have hb0 : b ≠ 0 := by omega
  have hne : data ≠ [] := by
    intro h
    rw [h] at hh
    simp at hh
  obtain ⟨hlen, hrect'⟩ := sc_pipeline_shapes data w ws hne hrect
  have hclen : (crop2 b (sc_map_raw data ws)).length = data.length - 2 * b := by
    rw [crop2_length hb0, hlen]
  have hcrect : Rect (crop2 b (sc_map_raw data ws)) (w - 2 * b) := crop2_rect hb0 hrect'
  have hcond : ¬(b = 0 ∨ (crop2 b (sc_map_raw data ws)).length = 0 ∨
      ∃ r ∈ crop2 b (sc_map_raw data ws), r.length = 0) := by
    push_neg
    refine ⟨hb0, by omega, ?_⟩
    intro r hr
    rw [hcrect r hr]
    omega
  unfold calculate_speckle_contrast_map
  rw [if_neg hcond]

theorem speckle_interior_getE (data : List (List ℝ)) (w ws i j : ℕ)
    (hrect : Rect data w) (hws : 2 ≤ ws)
    (hh : 2 * (ws / 2) < data.length) (hw : 2 * (ws / 2) < w)
    (hi1 : ws / 2 ≤ i) (hi2 : i < data.length - ws / 2)
    (hj1 : ws / 2 ≤ j) (hj2 : j < w - ws / 2) :
    ∃ m, calculate_speckle_contrast_map data ws = some m ∧
      getE m i j = getE (sc_map_raw data ws) i j := by
  set b := ws / 2 with hb
  have hb0 : b ≠ 0 := by omega
  have hne : data ≠ [] := by
    intro h
    rw [h] at hh
    simp at hh
  obtain ⟨hlen, hrect'⟩ := sc_pipeline_shapes data w ws hne hrect
  have hclen : (crop2 b (sc_map_raw data ws)).length = data.length - 2 * b := by
    rw [crop2_length hb0, hlen]
  have hcrect : Rect (crop2 b (sc_map_raw data ws)) (w - 2 * b) := crop2_rect hb0 hrect'
  refine ⟨_, speckle_eq data w ws hrect hws hh hw, ?_⟩
  rw [pad2_getE_interior hcrect hi1 (by omega) hj1 (by omega)]
  rw [crop2_getE hb0 hrect' (by omega) (by omega)]
  congr 1 <;> omega

theorem smul2_ne_nil {c : ℝ} {m : List (List ℝ)} (hne : m ≠ []) : smul2 c m ≠ [] := by
  cases m with
  | nil => exact absurd rfl hne
  | cons r rs => simp [smul2]

theorem ufVal_smul2 (c : ℝ) (m : List (List ℝ)) (ws i j : ℕ) :
    ufVal (smul2 c m) ws i j = c * ufVal m ws i j := by
  unfold ufVal
  rw [nrows_smul2, ncols_smul2]
  simp only [getE_smul2]
  simp only [← Finset.mul_sum]
  rw [mul_div_assoc]

theorem ufVal_sq2_smul2 (c : ℝ) (m : List (List ℝ)) (ws i j : ℕ) :
    ufVal (sq2 (smul2 c m)) ws i j = c ^ 2 * ufVal (sq2 m) ws i j := by
  unfold ufVal
  rw [nrows_sq2, nrows_smul2, ncols_sq2, ncols_smul2, nrows_sq2, ncols_sq2]
  simp only [getE_sq2, getE_smul2, mul_pow]
  simp only [← Finset.mul_sum]
  rw [mul_div_assoc]

theorem sc_map_raw_getE_smul (data : List (List ℝ)) (w ws : ℕ) (c : ℝ) {i j : ℕ}
    (hne : data ≠ []) (hrect : Rect data w) (hc : 0 < c)
    (hi : i < data.length) (hj : j < w) :
    getE (sc_map_raw (smul2 c data) ws) i j =
      Real.sqrt (max (ufVal (sq2 data) ws i j - (ufVal data ws i j) ^ 2) 0) /
        (ufVal data ws i j + scEps / c) := by
  have h := sc_map_raw_getE (smul2 c data) w ws (smul2_ne_nil hne)
    (rect_smul2 c hrect) (by rw [smul2_length]; exact hi) hj
  rw [h, ufVal_smul2, ufVal_sq2_smul2]
  set μ := ufVal data ws i j with hμ
  set q := ufVal (sq2 data) ws i j with hq
  have h1 : c ^ 2 * q - (c * μ) ^ 2 = c ^ 2 * (q - μ ^ 2) := by ring
  rw [h1]
  have h2 : max (c ^ 2 * (q - μ ^ 2)) 0 = c ^ 2 * max (q - μ ^ 2) 0 := by
    rw [mul_max_of_nonneg _ _ (sq_nonneg c), mul_zero]
  rw [h2, Real.sqrt_mul (sq_nonneg c), Real.sqrt_sq hc.le]
  have h3 : c * μ + scEps = c * (μ + scEps / c) := by
    field_simp <;> ring
  rw [h3, mul_div_mul_left _ _ (ne_of_gt hc)]

/- ==================== concrete window evaluations ==================== -/

theorem ufVal_sample_mean : ufVal sampleImg 2 1 1 = 2 := by
  norm_num [ufVal, nrows, ncols, sampleImg, getE, reflectIdx,
    Finset.sum_range_succ, Finset.sum_range_zero]

theorem ufVal_sample_sq : ufVal (sq2 sampleImg) 2 1 1 = 5 := by
  norm_num [ufVal, nrows, ncols, sampleImg, sq2, getE, reflectIdx,
    Finset.sum_range_succ, Finset.sum_range_zero]

/- ==================== claim theorems ==================== -/

/-- C1: for every rectangular 2-D intensity image and positive depth pixel
size `h_px`, `calculate_oac` returns a map of the same shape whose entry at
every pixel `(i, j)` equals `intensity / (2 * h_px * (D + 1e-10))`, where
`D` is the sum of the intensities at depth `i` and all deeper rows of
column `j` minus half the local intensity. -/
theorem claim_C1_oac_formula (m : List (List ℚ)) (w : ℕ) (h_px : ℚ)
    (hrect : Rect m w) (hpos : 0 < h_px) :
    (calculate_oac m h_px).length = m.length ∧ Rect (calculate_oac m h_px) w ∧
      ∀ i < m.length, ∀ j < w,
        getE (calculate_oac m h_px) i j =
          getE m i j /
            (2 * h_px * ((∑ k ∈ Finset.Ico i m.length, getE m k j) -
              (1 / 2) * getE m i j + 1 / 10 ^ 10)) := by
  refine ⟨calculate_oac_length m h_px, calculate_oac_rect h_px hrect, ?_⟩
  intro i hi j hj
  have h := calculate_oac_getE h_px hrect hi hj
  simpa [oacEps] using h

/-- Witness for C1 at the concrete image `oacImg` and `h_px = 1`. -/
theorem claim_C1_witness :
    Rect oacImg 2 ∧ (0 : ℚ) < 1 ∧
      ((calculate_oac oacImg 1).length = oacImg.length ∧ Rect (calculate_oac oacImg 1) 2 ∧
        ∀ i < oacImg.length, ∀ j < 2,
          getE (calculate_oac oacImg 1) i j =
            getE oacImg i j /
              (2 * 1 * ((∑ k ∈ Finset.Ico i oacImg.length, getE oacImg k j) -
                (1 / 2) * getE oacImg i j + 1 / 10 ^ 10))) :=
  ⟨by simp [Rect, oacImg], by norm_num,
    claim_C1_oac_formula oacImg 2 1 (by simp [Rect, oacImg]) (by norm_num)⟩

/-- C10: for every rectangular image with non-negative entries and positive
depth pixel size, every entry of the OAC map is non-negative (the
denominator term is at least half the local intensity, and epsilon is
positive). -/
theorem claim_C10_oac_nonneg (m : List (List ℚ)) (w : ℕ) (h_px : ℚ)
    (hrect : Rect m w) (hnn : ∀ r ∈ m, ∀ x ∈ r, 0 ≤ x) (hpos : 0 < h_px) :
    ∀ i < m.length, ∀ j < w, 0 ≤ getE (calculate_oac m h_px) i j := by
  intro i hi j hj
  rw [calculate_oac_getE h_px hrect hi hj]
  have hentry : ∀ k, k < m.length → 0 ≤ getE m k j := by
    intro k hk
    have hrow : j < ((m[k]?).getD []).length := by
      rw [rect_row_length hrect hk]; exact hj
    unfold getE
    rw [List.getElem?_eq_getElem hk] at hrow ⊢
    simp only [Option.getD_some] at hrow ⊢
    rw [List.getElem?_eq_getElem hrow]
    simp only [Option.getD_some]
    exact hnn _ (List.getElem_mem hk) _ (List.getElem_mem hrow)
  apply div_nonneg (hentry i hi)
  have hsum : getE m i j ≤ ∑ k ∈ Finset.Ico i m.length, getE m k j := by
    apply Finset.single_le_sum (fun k hk => hentry k (Finset.mem_Ico.mp hk).2)
    rw [Finset.mem_Ico]
    exact ⟨le_refl i, hi⟩
  have heps : (0 : ℚ) < oacEps := by norm_num [oacEps]
  have h1 : 0 ≤ (∑ k ∈ Finset.Ico i m.length, getE m k j) - (1 / 2) * getE m i j + oacEps := by
    have := hentry i hi
    linarith
  have h2 : (0 : ℚ) ≤ 2 * h_px := by linarith
  exact mul_nonneg h2 h1

/-- Witness for C10 at the concrete image `oacImg` and `h_px = 1`. -/
theorem claim_C10_witness :
    Rect oacImg 2 ∧ (∀ r ∈ oacImg, ∀ x ∈ r, (0 : ℚ) ≤ x) ∧ (0 : ℚ) < 1 ∧
      ∀ i < oacImg.length, ∀ j < 2, 0 ≤ getE (calculate_oac oacImg 1) i j :=
  ⟨by simp [Rect, oacImg], by simp [oacImg], by norm_num,
    claim_C10_oac_nonneg oacImg 2 1 (by simp [Rect, oacImg]) (by simp [oacImg]) (by norm_num)⟩

/-- C2: the tiered classifier promotes above the `None` verdict (star label
`""`) exactly when the two empirical [2.5, 97.5] percentile intervals do
not overlap, i.e. when `max(low1, low2) > min(high1, high2)`; it assigns
`HighlySignificant` (`"(**)"`, or the higher `"(***)"`) only when
additionally the [min, max] ranges do not overlap; and `RobustlySeparated`
(`"(***)"`) only when additionally the gap between the nearest range edges
exceeds the sum of the two standard deviations. -/
theorem claim_C2_tier_conditions (v1 v2 : List ℚ) (hv1 : v1 ≠ []) (hv2 : v2 ≠ []) :
    (star_label v1 v2 ≠ "" ↔
      min (percentile v1 (195 / 2)) (percentile v2 (195 / 2)) <
        max (percentile v1 (5 / 2)) (percentile v2 (5 / 2))) ∧
    (star_label v1 v2 = "(**)" ∨ star_label v1 v2 = "(***)" →
      min (listMax v1) (listMax v2) < max (listMin v1) (listMin v2)) ∧
    (star_label v1 v2 = "(***)" →
      listStd v1 + listStd v2 <
        ((if listMax v2 < listMin v1 then listMin v1 - listMax v2
          else listMin v2 - listMax v1 : ℚ) : ℝ)) := by
  simp only [star_label]
  by_cases hovl : max (percentile v1 (5 / 2)) (percentile v2 (5 / 2)) ≤
      min (percentile v1 (195 / 2)) (percentile v2 (195 / 2))
  · rw [if_pos hovl]
    refine ⟨⟨fun h => absurd rfl h, fun h => absurd h (not_lt.mpr hovl)⟩, ?_, ?_⟩
    · intro h
      rcases h with h | h <;> exact absurd h (by decide)
    · intro h
      exact absurd h (by decide)
  · rw [if_neg hovl]
    by_cases hrng : max (listMin v1) (listMin v2) ≤ min (listMax v1) (listMax v2)
    · rw [if_pos hrng]
      refine ⟨⟨fun _ => not_le.mp hovl, fun _ => by decide⟩, ?_, ?_⟩
      · intro h
        rcases h with h | h <;> exact absurd h (by decide)
      · intro h
        exact absurd h (by decide)
    · rw [if_neg hrng]
      by_cases hgap : listStd v1 + listStd v2 <
          ((if listMax v2 < listMin v1 then listMin v1 - listMax v2
            else listMin v2 - listMax v1 : ℚ) : ℝ)
      · rw [if_pos hgap]
        exact ⟨⟨fun _ => not_le.mp hovl, fun _ => by decide⟩, fun _ => not_le.mp hrng,
          fun _ => hgap⟩
      · rw [if_neg hgap]
        refine ⟨⟨fun _ => not_le.mp hovl, fun _ => by decide⟩, fun _ => not_le.mp hrng, ?_⟩
        intro h
        exact absurd h (by decide)

/-- Witness for C2 at the concrete value lists `[0]` and `[1]`. -/
theorem claim_C2_witness :
    ([(0 : ℚ)] ≠ []) ∧ ([(1 : ℚ)] ≠ []) ∧
      ((star_label [(0 : ℚ)] [(1 : ℚ)] ≠ "" ↔
        min (percentile [(0 : ℚ)] (195 / 2)) (percentile [(1 : ℚ)] (195 / 2)) <
          max (percentile [(0 : ℚ)] (5 / 2)) (percentile [(1 : ℚ)] (5 / 2))) ∧
      (star_label [(0 : ℚ)] [(1 : ℚ)] = "(**)" ∨ star_label [(0 : ℚ)] [(1 : ℚ)] = "(***)" →
        min (listMax [(0 : ℚ)]) (listMax [(1 : ℚ)]) <
          max (listMin [(0 : ℚ)]) (listMin [(1 : ℚ)])) ∧
      (star_label [(0 : ℚ)] [(1 : ℚ)] = "(***)" →
        listStd [(0 : ℚ)] + listStd [(1 : ℚ)] <
          ((if listMax [(1 : ℚ)] < listMin [(0 : ℚ)]
            then listMin [(0 : ℚ)] - listMax [(1 : ℚ)]
            else listMin [(1 : ℚ)] - listMax [(0 : ℚ)] : ℚ) : ℝ))) :=
  ⟨by simp, by simp, claim_C2_tier_conditions [0] [1] (by simp) (by simp)⟩

/-- C9: comparing a non-empty distribution against itself yields the `None`
verdict (empty star label): its percentile interval overlaps itself, and
`check_interval_overlap` reports overlap, so no diagnostic-power flag would
be set. -/
theorem claim_C9_self_comparison (v : List ℚ) (hv : v ≠ []) :
    get_stats_and_rating v v = some "" ∧
    check_interval_overlap (percentile v (5 / 2)) (percentile v (195 / 2))
      (percentile v (5 / 2)) (percentile v (195 / 2)) = true := by
  have hle : percentile v (5 / 2) ≤ percentile v (195 / 2) :=
    percentile_le_percentile v hv (by norm_num) (by norm_num) (by norm_num)
  constructor
  · unfold get_stats_and_rating
    rw [if_neg (by simp [List.length_eq_zero, hv])]
    congr 1
    simp only [star_label]
    rw [if_pos (by simpa using hle)]
  · simp [check_interval_overlap, hle]

/-- Witness for C9 at the concrete value list `[3]`. -/
theorem claim_C9_witness :
    ([(3 : ℚ)] ≠ []) ∧
      (get_stats_and_rating [(3 : ℚ)] [(3 : ℚ)] = some "" ∧
        check_interval_overlap (percentile [(3 : ℚ)] (5 / 2)) (percentile [(3 : ℚ)] (195 / 2))
          (percentile [(3 : ℚ)] (5 / 2)) (percentile [(3 : ℚ)] (195 / 2)) = true) :=
  ⟨by simp, claim_C9_self_comparison [3] (by simp)⟩

/-- C3: for the Intra tag with neighbor depth `d` and sequence length `N`,
source index `i` is paired exactly with indices `i+1` through
`min(i+d, N-1)`; in particular for `d = 5`, `N = 10`, index 0 yields
exactly the partners 1..5 and index 8 yields exactly the partner 9. -/
theorem claim_C3_intra_pairing :
    (∀ d N i j : ℕ, j ∈ intra_j_range d N i ↔ i + 1 ≤ j ∧ j ≤ min (i + d) (N - 1)) ∧
    intra_j_range 5 10 0 = [1, 2, 3, 4, 5] ∧ intra_j_range 5 10 8 = [9] := by
  refine ⟨?_, rfl, rfl⟩
  intro d N i j
  unfold intra_j_range
  rw [List.mem_range'_1]
  omega

/-- C4: the comparison-tag classification assigns `Intra` to equal folder
names, `Inter` when the folders differ and either one is the reference
set, and `Cross` otherwise. -/
theorem claim_C4_comp_type (reference_set name_a name_b : String) :
    (name_a = name_b → comp_type reference_set name_a name_b = CompType.intra) ∧
    (name_a ≠ name_b → (name_a = reference_set ∨ name_b = reference_set) →
      comp_type reference_set name_a name_b = CompType.inter) ∧
    (name_a ≠ name_b → name_a ≠ reference_set → name_b ≠ reference_set →
      comp_type reference_set name_a name_b = CompType.cross) := by
  unfold comp_type
  refine ⟨fun h => by rw [if_pos h], fun hne hor => ?_, fun hne ha hb => ?_⟩
  · rw [if_neg hne]
    rcases hor with h | h
    · rw [if_pos h]
    · by_cases h2 : name_a = reference_set
      · rw [if_pos h2]
      · rw [if_neg h2, if_pos h]
  · rw [if_neg hne, if_neg ha, if_neg hb]

/-- Witness for C4 at concrete folder names with reference set `"R"`. -/
theorem claim_C4_witness :
    comp_type "R" "A" "A" = CompType.intra ∧ comp_type "R" "R" "B" = CompType.inter ∧
      comp_type "R" "A" "B" = CompType.cross :=
  ⟨(claim_C4_comp_type "R" "A" "A").1 rfl,
   (claim_C4_comp_type "R" "R" "B").2.1 (by decide) (Or.inl rfl),
   (claim_C4_comp_type "R" "A" "B").2.2 (by decide) (by decide) (by decide)⟩

/-- C5 (amended): in the metric-performance evaluator `calc_pair_metrics`,
a pair of images whose shapes differ yields an empty result with no metric
scores at all (the orchestrator's `calculate_all_metrics` instead resizes
the target to the reference's shape and scores anyway, see the
counterexample). -/
theorem claim_C5_mismatch_empty
    (mseF psnrF ssimF : List (List ℚ) → List (List ℚ) → ℚ)
    (sewarAvailable : Bool) (vifF msssimF : List (List ℤ) → List (List ℤ) → MetricVal)
    (mlAvailable : Bool) (lpipsF : List (List ℚ) → List (List ℚ) → ℚ)
    (i1 i2 : List (List ℚ)) (hmis : dims i1 ≠ dims i2) :
    calc_pair_metrics mseF psnrF ssimF sewarAvailable vifF msssimF mlAvailable lpipsF
      i1 i2 = [] := by
  unfold calc_pair_metrics
  rw [if_pos hmis]

/-- C5 counterexample: the orchestrator's similarity evaluation
`calculate_all_metrics` does not return an empty result on a shape
mismatch - it resizes and scores, so the result is non-empty. -/
theorem claim_C5_counterexample :
    dims [[(0 : ℚ)]] ≠ dims [[(0 : ℚ)], [0]] ∧
    calculate_all_metrics zeroScore zeroScore zeroScore constResize false nanScore nanScore
      false zeroScore [[(0 : ℚ)]] [[(0 : ℚ)], [0]] ≠ [] := by
  constructor
  · decide
  · intro h
    simp [calculate_all_metrics] at h

/-- Witness for the amended C5 at a concrete shape-mismatched pair. -/
theorem claim_C5_witness :
    dims [[(0 : ℚ)]] ≠ dims [[(0 : ℚ)], [0]] ∧
    calc_pair_metrics zeroScore zeroScore zeroScore false nanScore nanScore false zeroScore
      [[(0 : ℚ)]] [[(0 : ℚ)], [0]] = [] :=
  ⟨by decide,
    claim_C5_mismatch_empty zeroScore zeroScore zeroScore false nanScore nanScore false
      zeroScore [[(0 : ℚ)]] [[(0 : ℚ)], [0]] (by decide)⟩

/-- C6 (amended): before MS-SSIM and VIF are computed, both images are
quantized to 8 bits, the byte at each pixel being the truncation
`floor(value * 255)` (not the rounding `round(value * 255)` - see the
counterexample): when the sewar collaborator is available and the shapes
match, the VIF and MS-SSIM entries are computed on the images quantized
pixelwise by `toU8 x = floor(x * 255)`. -/
theorem claim_C6_quantization
    (mseF psnrF ssimF : List (List ℚ) → List (List ℚ) → ℚ)
    (vifF msssimF : List (List ℤ) → List (List ℤ) → MetricVal)
    (mlAvailable : Bool) (lpipsF : List (List ℚ) → List (List ℚ) → ℚ)
    (i1 i2 : List (List ℚ)) (hdims : dims i1 = dims i2) :
    ("VIF", vifF (quantU8 i1) (quantU8 i2)) ∈
        calc_pair_metrics mseF psnrF ssimF true vifF msssimF mlAvailable lpipsF i1 i2 ∧
    ("MS-SSIM", msssimF (quantU8 i1) (quantU8 i2)) ∈
        calc_pair_metrics mseF psnrF ssimF true vifF msssimF mlAvailable lpipsF i1 i2 ∧
    ∀ m : List (List ℚ), ∀ i j : ℕ, getE (quantU8 m) i j = ⌊getE m i j * 255⌋ := by
  refine ⟨?_, ?_, ?_⟩
  · unfold calc_pair_metrics
    rw [if_neg (not_not_intro hdims)]
    simp
  · unfold calc_pair_metrics
    rw [if_neg (not_not_intro hdims)]
    simp
  · intro m i j
    unfold quantU8
    rw [getE_map_map (by norm_num [toU8])]
    rfl

/-- C6 counterexample: at pixel value 1/2 the quantized byte is
`floor(127.5) = 127`, while rounding would give 128. -/
theorem claim_C6_counterexample :
    getE (quantU8 [[(1 : ℚ) / 2]]) 0 0 ≠ round (getE [[(1 : ℚ) / 2]] 0 0 * 255) := by
  have h1 : getE (quantU8 [[(1 : ℚ) / 2]]) 0 0 = 127 := by
    simp [getE, quantU8, toU8]
    norm_num
  have h2 : round (getE [[(1 : ℚ) / 2]] 0 0 * 255) = 128 := by
    simp [getE]
    norm_num [round_eq]
  rw [h1, h2]
  decide

/-- Witness for the amended C6 at a concrete shape-matched pair. -/
theorem claim_C6_witness :
    dims [[(0 : ℚ)]] = dims [[(0 : ℚ)]] ∧
    (("VIF", nanScore (quantU8 [[(0 : ℚ)]]) (quantU8 [[(0 : ℚ)]])) ∈
        calc_pair_metrics zeroScore zeroScore zeroScore true nanScore nanScore false zeroScore
          [[(0 : ℚ)]] [[(0 : ℚ)]] ∧
      ("MS-SSIM", nanScore (quantU8 [[(0 : ℚ)]]) (quantU8 [[(0 : ℚ)]])) ∈
        calc_pair_metrics zeroScore zeroScore zeroScore true nanScore nanScore false zeroScore
          [[(0 : ℚ)]] [[(0 : ℚ)]] ∧
      ∀ m : List (List ℚ), ∀ i j : ℕ, getE (quantU8 m) i j = ⌊getE m i j * 255⌋) :=
  ⟨rfl, claim_C6_quantization zeroScore zeroScore zeroScore nanScore nanScore false zeroScore
    [[(0 : ℚ)]] [[(0 : ℚ)]] rfl⟩

/-- C7 (amended): for a rectangular image with positive entries, a positive
constant `c` and an interior pixel (outside the border band of width
`window_size / 2`), the speckle-contrast map of `c * image` has the value
`sigma / (mu + eps / c)` at that pixel, while the map of the image itself
has `sigma / (mu + eps)` there (`mu`, `sigma` the windowed mean and
standard deviation of the original image, `eps = 1e-10`): the interior
values agree up to replacing `eps` by `eps / c`, and exact equality fails
in general because of the regularizer (see the counterexample). -/
theorem claim_C7_scale_covariance (data : List (List ℝ)) (w ws : ℕ) (c : ℝ)
    (hrect : Rect data w) (hposE : ∀ r ∈ data, ∀ x ∈ r, 0 < x) (hc : 0 < c)
    (hws : 2 ≤ ws) (hh : 2 * (ws / 2) < data.length) (hw : 2 * (ws / 2) < w)
    (i j : ℕ) (hi1 : ws / 2 ≤ i) (hi2 : i < data.length - ws / 2)
    (hj1 : ws / 2 ≤ j) (hj2 : j < w - ws / 2) :
    ∃ ms m, calculate_speckle_contrast_map (smul2 c data) ws = some ms ∧
      calculate_speckle_contrast_map data ws = some m ∧
      getE ms i j =
        Real.sqrt (max (ufVal (sq2 data) ws i j - (ufVal data ws i j) ^ 2) 0) /
          (ufVal data ws i j + scEps / c) ∧
      getE m i j =
        Real.sqrt (max (ufVal (sq2 data) ws i j - (ufVal data ws i j) ^ 2) 0) /
          (ufVal data ws i j + scEps) := by
  have hne : data ≠ [] := by
    intro h
    rw [h] at hh
    simp at hh
  obtain ⟨ms, hms, hvs⟩ := speckle_interior_getE (smul2 c data) w ws i j
    (rect_smul2 c hrect) hws (by rw [smul2_length]; exact hh) hw hi1
    (by rw [smul2_length]; exact hi2) hj1 hj2
  obtain ⟨m, hm, hv⟩ := speckle_interior_getE data w ws i j hrect hws hh hw hi1 hi2 hj1 hj2
  refine ⟨ms, m, hms, hm, ?_, ?_⟩
  · rw [hvs, sc_map_raw_getE_smul data w ws c hne hrect hc (by omega) (by omega)]
  · rw [hv, sc_map_raw_getE data w ws hne hrect (by omega) (by omega)]

/-- C7 counterexample: at the interior pixel (1,1) of the 3×3 image
`sampleImg` with window size 2 and scale `c = 2`, the speckle-contrast
value of the scaled image differs from that of the original
(`1 / (2 + eps/2)` versus `1 / (2 + eps)`), so the interior values are not
equal. -/
theorem claim_C7_counterexample :
    getE ((calculate_speckle_contrast_map (smul2 2 sampleImg) 2).getD []) 1 1 ≠
      getE ((calculate_speckle_contrast_map sampleImg 2).getD []) 1 1 := by
  have hrect : Rect sampleImg 3 := by simp [Rect, sampleImg]
  have hlen : sampleImg.length = 3 := by simp [sampleImg]
  obtain ⟨ms, hms, hvs⟩ := speckle_interior_getE (smul2 2 sampleImg) 3 2 1 1
    (rect_smul2 2 hrect) (by norm_num) (by rw [smul2_length, hlen]; norm_num) (by norm_num)
    (by norm_num) (by rw [smul2_length, hlen]; norm_num) (by norm_num) (by norm_num)
  obtain ⟨m, hm, hv⟩ := speckle_interior_getE sampleImg 3 2 1 1 hrect (by norm_num)
    (by rw [hlen]; norm_num) (by norm_num) (by norm_num) (by rw [hlen]; norm_num)
    (by norm_num) (by norm_num)
  rw [hms, hm]
  simp only [Option.getD_some]
  rw [hvs, hv]
  rw [sc_map_raw_getE_smul sampleImg 3 2 2 (by simp [sampleImg]) hrect (by norm_num)
    (by rw [hlen]; norm_num) (by norm_num)]
  rw [sc_map_raw_getE sampleImg 3 2 (by simp [sampleImg]) hrect
    (by rw [hlen]; norm_num) (by norm_num)]
  rw [ufVal_sample_mean, ufVal_sample_sq]
  have hmax : max ((5 : ℝ) - 2 ^ 2) 0 = 1 := by norm_num
  rw [hmax, Real.sqrt_one]
  intro heq
  rw [div_eq_div_iff (by norm_num [scEps]) (by norm_num [scEps])] at heq
  norm_num [scEps] at heq

/-- Witness for the amended C7 at `sampleImg`, window size 2, `c = 2`,
interior pixel (1,1). -/
theorem claim_C7_witness :
    Rect sampleImg 3 ∧ (∀ r ∈ sampleImg, ∀ x ∈ r, (0 : ℝ) < x) ∧ (0 : ℝ) < 2 ∧
      2 ≤ 2 ∧ 2 * (2 / 2) < sampleImg.length ∧ 2 * (2 / 2) < 3 ∧
      2 / 2 ≤ 1 ∧ 1 < sampleImg.length - 2 / 2 ∧ 2 / 2 ≤ 1 ∧ 1 < 3 - 2 / 2 ∧
      ∃ ms m, calculate_speckle_contrast_map (smul2 2 sampleImg) 2 = some ms ∧
        calculate_speckle_contrast_map sampleImg 2 = some m ∧
        getE ms 1 1 =
          Real.sqrt (max (ufVal (sq2 sampleImg) 2 1 1 - (ufVal sampleImg 2 1 1) ^ 2) 0) /
            (ufVal sampleImg 2 1 1 + scEps / 2) ∧
        getE m 1 1 =
          Real.sqrt (max (ufVal (sq2 sampleImg) 2 1 1 - (ufVal sampleImg 2 1 1) ^ 2) 0) /
            (ufVal sampleImg 2 1 1 + scEps) :=
  ⟨by simp [Rect, sampleImg], by norm_num [sampleImg], by norm_num, by norm_num,
    by norm_num [sampleImg], by norm_num, by norm_num, by norm_num [sampleImg],
    by norm_num, by norm_num,
    claim_C7_scale_covariance sampleImg 3 2 2 (by simp [Rect, sampleImg])
      (by norm_num [sampleImg]) (by norm_num) (by norm_num) (by norm_num [sampleImg])
      (by norm_num) 1 1 (by norm_num) (by norm_num [sampleImg]) (by norm_num) (by norm_num)⟩

/-- C8 (amended): for every rectangular 2-D image whose height and width
both exceed `2 * (window_size / 2)` (and window size at least 2), the
speckle-contrast estimator discards a border of width `window_size / 2`,
re-pads by edge replication, and returns a map with the same height and
width as the input.  For smaller images the crop is empty and the
re-padding step (`np.pad(..., mode='edge')`) fails, so no map is returned
(see the counterexample). -/
theorem claim_C8_shape (data : List (List ℝ)) (w ws : ℕ)
    (hrect : Rect data w) (hws : 2 ≤ ws)
    (hh : 2 * (ws / 2) < data.length) (hw : 2 * (ws / 2) < w) :
    ∃ m, calculate_speckle_contrast_map data ws = some m ∧
      m.length = data.length ∧ Rect m w :=
  speckle_some data w ws hrect hws hh hw

/-- C8 counterexample: on a 1×1 image with the default window size 20, the
crop `sc_map[10:-10, 10:-10]` is empty and `np.pad` raises, so the
estimator returns no map (in particular no map of the input's shape). -/
theorem claim_C8_counterexample :
    calculate_speckle_contrast_map [[(0 : ℝ)]] 20 = none := by
  have hlen : (sc_map_raw [[(0 : ℝ)]] 20).length = 1 := by
    have h := (sc_pipeline_shapes [[(0 : ℝ)]] 1 20 (by simp) (by simp [Rect])).1
    simpa using h
  have hc : (crop2 (20 / 2) (sc_map_raw [[(0 : ℝ)]] 20)).length = 0 := by
    rw [crop2_length (by norm_num), hlen]
  simp only [calculate_speckle_contrast_map]
  rw [if_pos (Or.inr (Or.inl hc))]

/-- Witness for the amended C8 at the 3×3 image `sampleImg`, window size 2. -/
theorem claim_C8_witness :
    Rect sampleImg 3 ∧ 2 ≤ 2 ∧ 2 * (2 / 2) < sampleImg.length ∧ 2 * (2 / 2) < 3 ∧
      ∃ m, calculate_speckle_contrast_map sampleImg 2 = some m ∧
        m.length = sampleImg.length ∧ Rect m 3 :=
  ⟨by simp [Rect, sampleImg], by norm_num, by norm_num [sampleImg], by norm_num,
    claim_C8_shape sampleImg 3 2 (by simp [Rect, sampleImg]) (by norm_num)
      (by norm_num [sampleImg]) (by norm_num)⟩
